import Mathlib

/-!
Verification of the `test_task::MessageQueue` bounded FIFO message queue
(`src/MessageQueue.h`).  The queue state is embedded shallowly: the
`std::list<Message> m_queue` becomes a Lean `List`, the fixed
`m_queueSize` a `Nat`, and the atomic `m_state` flag a `Bool`.  Each
public operation (`Push`, `Pop`, `Get`, `Close`) becomes a pure state
transformer returning the same `Result` codes as the C++ source.
-/

namespace TestTask

/-- `enum class Result` from `MessageQueue.h`. -/
inductive Result where
  | Ok
  | Empty
  | Full
  | NotFound
  | Closed
deriving DecidableEq, Repr

/-- The state of one `MessageQueue<Message>` instance: the buffered
messages (`m_queue`, head first), the fixed capacity (`m_queueSize`)
and whether `m_state == State::Closed`. -/
structure QState (M : Type) where
  buffer : List M
  capacity : Nat
  closed : Bool
deriving Repr, DecidableEq

/-- The fault raised by the constructor (`std::invalid_argument`). -/
inductive ConstructError where
  | invalidArgument
deriving DecidableEq, Repr

/-- The constructor `MessageQueue(std::size_t queueSize)`: throws
`std::invalid_argument` when `queueSize == 0`, otherwise yields an open
queue with an empty buffer and that capacity. -/
def mkQueue (M : Type) (queueSize : Nat) : Except ConstructError (QState M) :=
  if queueSize = 0 then
    Except.error ConstructError.invalidArgument
  else
    Except.ok { buffer := [], capacity := queueSize, closed := false }

/-- `Push<NonBlocking>`: fail fast when closed; `Full` when
`m_queue.size() == m_queueSize`; otherwise `emplace_back` and `Ok`. -/
def push {M : Type} (s : QState M) (m : M) : Result × QState M :=
  if s.closed then (Result.Closed, s)
  else if s.buffer.length = s.capacity then (Result.Full, s)
  else (Result.Ok, { s with buffer := s.buffer ++ [m] })

/-- `Push<Blocking>` viewed at one observable instant: when closed it
returns `Closed`; when the buffer is full (and open) the thread is
suspended in `m_pushCv.wait`, so no result is produced yet (`none`) and
the state is untouched; otherwise it appends and returns `Ok`. -/
def pushB {M : Type} (s : QState M) (m : M) : Option Result × QState M :=
  if s.closed then (some Result.Closed, s)
  else if s.buffer.length = s.capacity then (none, s)
  else (some Result.Ok, { s with buffer := s.buffer ++ [m] })

/-- `Pop<NonBlocking>`: fail fast when closed; `Empty` on an empty
buffer; otherwise move out `m_queue.front()`, `pop_front`, return `Ok`.
The `{}` message returned on the non-`Ok` paths is the
default-constructed `Message`, modelled by `default`. -/
def pop {M : Type} [Inhabited M] (s : QState M) : M × Result × QState M :=
  if s.closed then (default, Result.Closed, s)
  else
    match s.buffer with
    | [] => (default, Result.Empty, s)
    | m :: rest => (m, Result.Ok, { s with buffer := rest })

/-- `Pop<Blocking>` at one observable instant: `Closed` when closed;
suspended (no result, no mutation) on an open empty buffer; otherwise
removes the head with `Ok`. -/
def popB {M : Type} [Inhabited M] (s : QState M) : M × Option Result × QState M :=
  if s.closed then (default, some Result.Closed, s)
  else
    match s.buffer with
    | [] => (default, none, s)
    | m :: rest => (m, some Result.Ok, { s with buffer := rest })

/-- `std::find_if` followed by `std::list::erase`: returns the first
element satisfying `p` together with the remaining list (order of the
remaining elements unchanged), or `none` when no element matches. -/
def extractFirst {M : Type} (p : M → Bool) : List M → Option (M × List M)
  | [] => none
  | m :: rest =>
    if p m then some (m, rest)
    else (extractFirst p rest).map (fun r => (r.1, m :: r.2))

/-- `Get(Predicate&&)`: fail fast when closed; `Empty` on an empty
buffer; then scan with `find_if` — `NotFound` when the scan hits
`m_queue.end()`, otherwise erase the found element and return it. -/
def get {M : Type} [Inhabited M] (p : M → Bool) (s : QState M) : M × Result × QState M :=
  if s.closed then (default, Result.Closed, s)
  else if s.buffer.isEmpty then (default, Result.Empty, s)
  else
    match extractFirst p s.buffer with
    | none => (default, Result.NotFound, s)
    | some (m, rest) => (m, Result.Ok, { s with buffer := rest })

/-- `Close()`: store `State::Closed`, notify all waiters, return `Ok`. -/
def close {M : Type} (s : QState M) : Result × QState M :=
  (Result.Ok, { s with closed := true })

/-- One call on the public operation surface of the queue. -/
inductive Op (M : Type) where
  | pushNB (m : M)
  | pushBl (m : M)
  | popNB
  | popBl
  | getOp (p : M → Bool)
  | closeOp

/-- The state reached after one operation (for a blocking call that is
still suspended, the state at this observable instant). -/
def step {M : Type} [Inhabited M] (s : QState M) : Op M → QState M
  | Op.pushNB m => (push s m).2
  | Op.pushBl m => (pushB s m).2
  | Op.popNB => (pop s).2.2
  | Op.popBl => (popB s).2.2
  | Op.getOp p => (get p s).2.2
  | Op.closeOp => (close s).2

/-- A run of the queue together with the log of messages accepted by
successful `Push` calls and the log of messages returned by successful
`Pop` calls (matched extractions via `Get` are not logged as pops). -/
structure Trace (M : Type) where
  state : QState M
  pushed : List M
  popped : List M

/-- Execute one operation and extend the logs. -/
def stepT {M : Type} [Inhabited M] (t : Trace M) : Op M → Trace M
  | Op.pushNB m =>
    let r := push t.state m
    { state := r.2,
      pushed := if r.1 = Result.Ok then t.pushed ++ [m] else t.pushed,
      popped := t.popped }
  | Op.pushBl m =>
    let r := pushB t.state m
    { state := r.2,
      pushed := if r.1 = some Result.Ok then t.pushed ++ [m] else t.pushed,
      popped := t.popped }
  | Op.popNB =>
    let r := pop t.state
    { state := r.2.2,
      pushed := t.pushed,
      popped := if r.2.1 = Result.Ok then t.popped ++ [r.1] else t.popped }
  | Op.popBl =>
    let r := popB t.state
    { state := r.2.2,
      pushed := t.pushed,
      popped := if r.2.1 = some Result.Ok then t.popped ++ [r.1] else t.popped }
  | Op.getOp p =>
    { state := (get p t.state).2.2, pushed := t.pushed, popped := t.popped }
  | Op.closeOp =>
    { state := (close t.state).2, pushed := t.pushed, popped := t.popped }

/-- Run a whole sequence of operations. -/
def runT {M : Type} [Inhabited M] (t : Trace M) (ops : List (Op M)) : Trace M :=
  ops.foldl stepT t

/-- The trace of a freshly constructed (open, empty) queue. -/
def initTrace (M : Type) [Inhabited M] (c : Nat) : Trace M :=
  { state := { buffer := [], capacity := c, closed := false }, pushed := [], popped := [] }

/-- Whether an operation is a matched extraction (`Get`). -/
def Op.isGet {M : Type} : Op M → Bool
  | Op.getOp _ => true
  | _ => false

/-- C9: construction fails with `std::invalid_argument` exactly for
capacity 0; every positive capacity yields an open queue with an empty
buffer and that capacity. -/
theorem mkQueue_spec (M : Type) (c : Nat) :
    mkQueue M 0 = Except.error ConstructError.invalidArgument ∧
    (0 < c → mkQueue M c = Except.ok { buffer := [], capacity := c, closed := false }) := by
  constructor
  · rfl
  · intro hc
    simp [mkQueue, Nat.pos_iff_ne_zero.mp hc]

/-- Witness for `mkQueue_spec` at capacity 3. -/
theorem mkQueue_spec_witness :
    mkQueue Nat 0 = Except.error ConstructError.invalidArgument ∧
    mkQueue Nat 3 = Except.ok { buffer := [], capacity := 3, closed := false } :=
  ⟨(mkQueue_spec Nat 3).1, (mkQueue_spec Nat 3).2 (by decide)⟩

/-- C1: once the queue is closed, every operation — `Push` of either
policy, `Pop` of either policy, and `Get` — returns `Closed` and leaves
the state (in particular the buffer) unchanged. -/
theorem close_terminal {M : Type} [Inhabited M] (s : QState M) (m : M) (p : M → Bool)
    (h : s.closed = true) :
    push s m = (Result.Closed, s) ∧
    pushB s m = (some Result.Closed, s) ∧
    pop s = ((default : M), Result.Closed, s) ∧
    popB s = ((default : M), some Result.Closed, s) ∧
    get p s = ((default : M), Result.Closed, s) := by
  simp [push, pushB, pop, popB, get, h]

/-- Witness for `close_terminal` on a closed queue with a non-empty
buffer: `Pop` returns `Closed`, not the head. -/
theorem close_terminal_witness :
    (⟨[1, 2], 2, true⟩ : QState Nat).closed = true ∧
    push (⟨[1, 2], 2, true⟩ : QState Nat) 5 = (Result.Closed, ⟨[1, 2], 2, true⟩) ∧
    pushB (⟨[1, 2], 2, true⟩ : QState Nat) 5 = (some Result.Closed, ⟨[1, 2], 2, true⟩) ∧
    pop (⟨[1, 2], 2, true⟩ : QState Nat) = ((default : Nat), Result.Closed, ⟨[1, 2], 2, true⟩) ∧
    popB (⟨[1, 2], 2, true⟩ : QState Nat)
      = ((default : Nat), some Result.Closed, ⟨[1, 2], 2, true⟩) ∧
    get (fun x => x == 1) (⟨[1, 2], 2, true⟩ : QState Nat)
      = ((default : Nat), Result.Closed, ⟨[1, 2], 2, true⟩) :=
  ⟨rfl, close_terminal ⟨[1, 2], 2, true⟩ 5 (fun x => x == 1) rfl⟩

/-- C8: `Close` always returns `Ok`; it is idempotent (a second `Close`
produces the same result and state); and after a `Close` no operation
ever makes the queue open again. -/
theorem close_ok_idempotent {M : Type} [Inhabited M] (s : QState M) (op : Op M) :
    (close s).1 = Result.Ok ∧
    close (close s).2 = close s ∧
    (step (close s).2 op).closed = true := by
  refine ⟨rfl, rfl, ?_⟩
  cases op <;> simp [step, push, pushB, pop, popB, get, close]

/-- C4: `Push<NonBlocking>` on an open queue: `Full` without mutation
when the buffer is at capacity; otherwise it appends at the tail,
returns `Ok`, and the length grows by exactly one. -/
theorem push_nonblocking_spec {M : Type} (s : QState M) (m : M)
    (hopen : s.closed = false) :
    (s.buffer.length = s.capacity → push s m = (Result.Full, s)) ∧
    (s.buffer.length < s.capacity →
      push s m = (Result.Ok, { s with buffer := s.buffer ++ [m] }) ∧
      (push s m).2.buffer.length = s.buffer.length + 1) := by
  constructor
  · intro hf
    simp [push, hopen, hf]
  · intro hlt
    have hne : s.buffer.length ≠ s.capacity := Nat.ne_of_lt hlt
    simp [push, hopen, hne]

/-- Witness for `push_nonblocking_spec`: a full queue rejects with
`Full`; a non-full queue appends and grows by one. -/
theorem push_nonblocking_spec_witness :
    push (⟨[0], 1, false⟩ : QState Nat) 7 = (Result.Full, ⟨[0], 1, false⟩) ∧
    push (⟨[], 1, false⟩ : QState Nat) 7 = (Result.Ok, ⟨[7], 1, false⟩) ∧
    (push (⟨[], 1, false⟩ : QState Nat) 7).2.buffer.length = 0 + 1 :=
  ⟨(push_nonblocking_spec ⟨[0], 1, false⟩ 7 rfl).1 rfl,
   ((push_nonblocking_spec ⟨[], 1, false⟩ 7 rfl).2 (by decide)).1,
   ((push_nonblocking_spec ⟨[], 1, false⟩ 7 rfl).2 (by decide)).2⟩

/-- C5: `Pop<NonBlocking>` on an open queue: `(default, Empty)` without
mutation when the buffer is empty; otherwise it removes and returns the
head with `Ok` and the length shrinks by exactly one. -/
theorem pop_nonblocking_spec {M : Type} [Inhabited M] (s : QState M)
    (hopen : s.closed = false) :
    (s.buffer = [] → pop s = ((default : M), Result.Empty, s)) ∧
    (∀ m rest, s.buffer = m :: rest →
      pop s = (m, Result.Ok, { s with buffer := rest }) ∧
      (pop s).2.2.buffer.length + 1 = s.buffer.length) := by
  constructor
  · intro he
    simp [pop, hopen, he]
  · intro m rest hb
    refine ⟨by simp [pop, hopen, hb], ?_⟩
    simp [pop, hopen, hb]

/-- Witness for `pop_nonblocking_spec`: the empty case and the head
removal case at concrete states. -/
theorem pop_nonblocking_spec_witness :
    pop (⟨[], 2, false⟩ : QState Nat) = ((default : Nat), Result.Empty, ⟨[], 2, false⟩) ∧
    pop (⟨[4, 5], 2, false⟩ : QState Nat) = (4, Result.Ok, ⟨[5], 2, false⟩) ∧
    (pop (⟨[4, 5], 2, false⟩ : QState Nat)).2.2.buffer.length + 1 = 2 :=
  ⟨(pop_nonblocking_spec ⟨[], 2, false⟩ rfl).1 rfl,
   ((pop_nonblocking_spec ⟨[4, 5], 2, false⟩ rfl).2 4 [5] rfl).1,
   ((pop_nonblocking_spec ⟨[4, 5], 2, false⟩ rfl).2 4 [5] rfl).2⟩

/-- C10: whenever `Pop` (of either policy) or `Get` reports a result
other than `Ok`, the message component of the returned pair is the
default-constructed `Message` (`Message msg;` / `{}` in the source,
including the blocking branch's `return { {}, Result::Closed }`) —
which is why the embedding, like the C++ code, needs `Message` to be
default-constructible (`Inhabited`). -/
theorem nonOk_returns_default {M : Type} [Inhabited M] (s : QState M) (p : M → Bool) :
    ((pop s).2.1 ≠ Result.Ok → (pop s).1 = (default : M)) ∧
    ((popB s).2.1 ≠ some Result.Ok → (popB s).1 = (default : M)) ∧
    ((get p s).2.1 ≠ Result.Ok → (get p s).1 = (default : M)) := by
  refine ⟨?_, ?_, ?_⟩
  · intro h
    by_cases hc : s.closed = true
    · simp [pop, hc]
    · simp only [Bool.not_eq_true] at hc
      cases hb : s.buffer with
      | nil => simp [pop, hc, hb]
      | cons m rest => exact absurd (by simp [pop, hc, hb]) h
  · intro h
    by_cases hc : s.closed = true
    · simp [popB, hc]
    · simp only [Bool.not_eq_true] at hc
      cases hb : s.buffer with
      | nil => simp [popB, hc, hb]
      | cons m rest => exact absurd (by simp [popB, hc, hb]) h
  · intro h
    by_cases hc : s.closed = true
    · simp [get, hc]
    · simp only [Bool.not_eq_true] at hc
      by_cases he : s.buffer.isEmpty = true
      · simp [get, hc, he]
      · cases hx : extractFirst p s.buffer with
        | none => simp [get, hc, he, hx]
        | some r => exact absurd (by simp [get, hc, he, hx]) h

/-- Witness for `nonOk_returns_default`: an empty-queue `Pop`, a
closed-queue `Pop<Blocking>` returning `Closed`, and a no-match `Get`
all hand back the default message. -/
theorem nonOk_returns_default_witness :
    (pop (⟨[], 1, false⟩ : QState Nat)).1 = (default : Nat) ∧
    (popB (⟨[3], 1, true⟩ : QState Nat)).1 = (default : Nat) ∧
    (get (fun x => x == 5) (⟨[1, 2], 2, false⟩ : QState Nat)).1 = (default : Nat) :=
  ⟨(nonOk_returns_default (⟨[], 1, false⟩ : QState Nat) (fun x => x == 5)).1 (by decide),
   (nonOk_returns_default (⟨[3], 1, true⟩ : QState Nat) (fun x => x == 5)).2.1 (by decide),
   (nonOk_returns_default (⟨[1, 2], 2, false⟩ : QState Nat) (fun x => x == 5)).2.2 (by decide)⟩

/-- When no element satisfies the predicate, the `find_if` scan reaches
`end()` and `extractFirst` yields nothing. -/
theorem extractFirst_of_forall_not {M : Type} (p : M → Bool) (l : List M)
    (h : ∀ x ∈ l, p x = false) : extractFirst p l = none := by
  induction l with
  | nil => rfl
  | cons a tl ih =>
    have ha : p a = false := h a (List.mem_cons_self a tl)
    have htl := ih (fun x hx => h x (List.mem_cons_of_mem a hx))
    simp [extractFirst, ha, htl]

/-- The scan removes exactly the first matching element and keeps the
rest in order. -/
theorem extractFirst_first_match {M : Type} (p : M → Bool) (l1 : List M) (m : M)
    (l2 : List M) (h1 : ∀ x ∈ l1, p x = false) (hm : p m = true) :
    extractFirst p (l1 ++ m :: l2) = some (m, l1 ++ l2) := by
  induction l1 with
  | nil => simp [extractFirst, hm]
  | cons a tl ih =>
    have ha : p a = false := h1 a (List.mem_cons_self a tl)
    have htl := ih (fun x hx => h1 x (List.mem_cons_of_mem a hx))
    simp [extractFirst, ha, htl]

/-- A successful scan shortens the buffer by exactly one element. -/
theorem extractFirst_length {M : Type} (p : M → Bool) (l : List M) (m : M)
    (rest : List M) (h : extractFirst p l = some (m, rest)) :
    rest.length + 1 = l.length := by
  induction l generalizing m rest with
  | nil => simp [extractFirst] at h
  | cons a tl ih =>
    by_cases ha : p a = true
    · simp [extractFirst, ha] at h
      obtain ⟨h1, h2⟩ := h
      subst h2
      rfl
    · simp only [Bool.not_eq_true] at ha
      cases hx : extractFirst p tl with
      | none => simp [extractFirst, ha, hx] at h
      | some pr =>
        simp [extractFirst, ha, hx] at h
        obtain ⟨h1, h2⟩ := h
        subst h2
        have hlen := ih pr.1 pr.2 (by rw [hx])
        simp only [List.length_cons]
        omega

/-- C6: `Get` on an open queue: `Empty` on an empty buffer; `NotFound`
without mutation when no element matches; otherwise it removes exactly
the first (head-to-tail) matching element, returns it with `Ok`, and
the remaining elements keep their relative order. -/
theorem get_spec {M : Type} [Inhabited M] (p : M → Bool) (s : QState M)
    (hopen : s.closed = false) :
    (s.buffer = [] → get p s = ((default : M), Result.Empty, s)) ∧
    (s.buffer ≠ [] → (∀ x ∈ s.buffer, p x = false) →
      get p s = ((default : M), Result.NotFound, s)) ∧
    (∀ l1 m l2, s.buffer = l1 ++ m :: l2 → (∀ x ∈ l1, p x = false) → p m = true →
      get p s = (m, Result.Ok, { s with buffer := l1 ++ l2 })) := by
  refine ⟨?_, ?_, ?_⟩
  · intro hb
    simp [get, hopen, hb]
  · intro hb hall
    have hnone := extractFirst_of_forall_not p s.buffer hall
    have hne : s.buffer.isEmpty = false := by
      cases hbuf : s.buffer with
      | nil => exact absurd hbuf hb
      | cons a tl => rfl
    simp [get, hopen, hne, hnone]
  · intro l1 m l2 hb h1 hm
    have hsome := extractFirst_first_match p l1 m l2 h1 hm
    have hne : (l1 ++ m :: l2).isEmpty = false := by
      cases l1 <;> rfl
    simp [get, hopen, hb, hne, hsome]

/-- Witness for `get_spec`: interior extraction preserving order, a
no-match `NotFound`, and the empty-buffer `Empty` case. -/
theorem get_spec_witness :
    get (fun x => x == 2) (⟨[1, 2, 3], 3, false⟩ : QState Nat)
      = (2, Result.Ok, ⟨[1, 3], 3, false⟩) ∧
    get (fun x => x == 9) (⟨[1, 2, 3], 3, false⟩ : QState Nat)
      = ((default : Nat), Result.NotFound, ⟨[1, 2, 3], 3, false⟩) ∧
    get (fun x => x == 9) (⟨[], 3, false⟩ : QState Nat)
      = ((default : Nat), Result.Empty, ⟨[], 3, false⟩) :=
  ⟨(get_spec (fun x => x == 2) ⟨[1, 2, 3], 3, false⟩ rfl).2.2 [1] 2 [3] rfl
      (by decide) (by decide),
   (get_spec (fun x => x == 9) ⟨[1, 2, 3], 3, false⟩ rfl).2.1 (by decide) (by decide),
   (get_spec (fun x => x == 9) ⟨[], 3, false⟩ rfl).1 rfl⟩

/-- One non-`Get` operation preserves the log equation `popped ++
buffer = pushed`. -/
theorem stepT_log {M : Type} [Inhabited M] (t : Trace M) (o : Op M)
    (hno : o.isGet = false)
    (h : t.popped ++ t.state.buffer = t.pushed) :
    (stepT t o).popped ++ (stepT t o).state.buffer = (stepT t o).pushed := by
  cases o with
  | pushNB m =>
    by_cases hc : t.state.closed = true
    · simp [stepT, push, hc, h]
    · simp only [Bool.not_eq_true] at hc
      by_cases hf : t.state.buffer.length = t.state.capacity
      · simp [stepT, push, hc, hf, h]
      · simp only [stepT, push, hc, hf]
        simp only [Bool.false_eq_true, if_false, if_neg hf, if_pos rfl]
        rw [← List.append_assoc, h]
        simp
  | pushBl m =>
    by_cases hc : t.state.closed = true
    · simp [stepT, pushB, hc, h]
    · simp only [Bool.not_eq_true] at hc
      by_cases hf : t.state.buffer.length = t.state.capacity
      · simp [stepT, pushB, hc, hf, h]
      · simp only [stepT, pushB, hc, hf]
        simp only [Bool.false_eq_true, if_false, if_neg hf, if_pos rfl]
        rw [← List.append_assoc, h]
        simp
  | popNB =>
    by_cases hc : t.state.closed = true
    · simp [stepT, pop, hc, h]
    · simp only [Bool.not_eq_true] at hc
      cases hb : t.state.buffer with
      | nil =>
        rw [hb] at h
        simp only [stepT, pop, hc, hb]
        simpa [hb] using h
      | cons m rest =>
        rw [hb] at h
        simp only [stepT, pop, hc, hb]
        simp only [Bool.false_eq_true, if_false, if_pos rfl, if_true]
        rw [List.append_assoc]
        simpa using h
  | popBl =>
    by_cases hc : t.state.closed = true
    · simp [stepT, popB, hc, h]
    · simp only [Bool.not_eq_true] at hc
      cases hb : t.state.buffer with
      | nil =>
        rw [hb] at h
        simp only [stepT, popB, hc, hb]
        simpa [hb] using h
      | cons m rest =>
        rw [hb] at h
        simp only [stepT, popB, hc, hb]
        simp only [Bool.false_eq_true, if_false, if_pos rfl, if_true]
        rw [List.append_assoc]
        simpa using h
  | getOp p => simp [Op.isGet] at hno
  | closeOp => simpa [stepT, close] using h

/-- The log equation is preserved along any `Get`-free run. -/
theorem runT_log {M : Type} [Inhabited M] (ops : List (Op M)) :
    ∀ t : Trace M, (∀ o ∈ ops, o.isGet = false) →
      t.popped ++ t.state.buffer = t.pushed →
      (runT t ops).popped ++ (runT t ops).state.buffer = (runT t ops).pushed := by
  induction ops with
  | nil => intro t _ h; exact h
  | cons o rest ih =>
    intro t hall h
    have h1 := stepT_log t o (hall o (List.mem_cons_self o rest)) h
    exact ih (stepT t o) (fun x hx => hall x (List.mem_cons_of_mem o hx)) h1

/-- C2: FIFO order. Along any `Get`-free run from a fresh queue, the
messages returned by successful `Pop` calls followed by the current
buffer are exactly the messages accepted by successful `Push` calls, in
insertion order; once the buffer is drained the two logs coincide. -/
theorem fifo_order {M : Type} [Inhabited M] (c : Nat) (ops : List (Op M))
    (hall : ∀ o ∈ ops, o.isGet = false) :
    (runT (initTrace M c) ops).popped ++ (runT (initTrace M c) ops).state.buffer
        = (runT (initTrace M c) ops).pushed ∧
    ((runT (initTrace M c) ops).state.buffer = [] →
      (runT (initTrace M c) ops).popped = (runT (initTrace M c) ops).pushed) := by
  have h := runT_log ops (initTrace M c) hall (by rfl)
  refine ⟨h, fun hemp => ?_⟩
  rw [hemp] at h
  simpa using h

/-- Witness for `fifo_order`: two pushes then two pops on a fresh
capacity-2 queue deliver the messages in insertion order. -/
theorem fifo_order_witness :
    (runT (initTrace Nat 2) [Op.pushNB 1, Op.pushNB 2, Op.popNB, Op.popNB]).popped ++
        (runT (initTrace Nat 2) [Op.pushNB 1, Op.pushNB 2, Op.popNB, Op.popNB]).state.buffer
      = (runT (initTrace Nat 2) [Op.pushNB 1, Op.pushNB 2, Op.popNB, Op.popNB]).pushed ∧
    ((runT (initTrace Nat 2) [Op.pushNB 1, Op.pushNB 2, Op.popNB, Op.popNB]).state.buffer = [] →
      (runT (initTrace Nat 2) [Op.pushNB 1, Op.pushNB 2, Op.popNB, Op.popNB]).popped
        = (runT (initTrace Nat 2) [Op.pushNB 1, Op.pushNB 2, Op.popNB, Op.popNB]).pushed) :=
  fifo_order 2 [Op.pushNB 1, Op.pushNB 2, Op.popNB, Op.popNB] (by decide)

/-- The state after `stepT` is the state after `step`. -/
theorem stepT_state {M : Type} [Inhabited M] (t : Trace M) (o : Op M) :
    (stepT t o).state = step t.state o := by
  cases o <;> rfl

/-- Each operation keeps the capacity fixed and never pushes the buffer
length above the capacity. -/
theorem step_bound {M : Type} [Inhabited M] (s : QState M) (o : Op M)
    (h : s.buffer.length ≤ s.capacity) :
    (step s o).capacity = s.capacity ∧ (step s o).buffer.length ≤ s.capacity := by
  cases o with
  | pushNB m =>
    by_cases hc : s.closed = true
    · simp [step, push, hc, h]
    · simp only [Bool.not_eq_true] at hc
      by_cases hf : s.buffer.length = s.capacity
      · simp [step, push, hc, hf, h]
      · refine ⟨by simp [step, push, hc, hf], ?_⟩
        simp [step, push, hc, hf]
        omega
  | pushBl m =>
    by_cases hc : s.closed = true
    · simp [step, pushB, hc, h]
    · simp only [Bool.not_eq_true] at hc
      by_cases hf : s.buffer.length = s.capacity
      · simp [step, pushB, hc, hf, h]
      · refine ⟨by simp [step, pushB, hc, hf], ?_⟩
        simp [step, pushB, hc, hf]
        omega
  | popNB =>
    by_cases hc : s.closed = true
    · simp [step, pop, hc, h]
    · simp only [Bool.not_eq_true] at hc
      cases hb : s.buffer with
      | nil => simp [step, pop, hc, hb, h]
      | cons m rest =>
        rw [hb] at h
        refine ⟨by simp [step, pop, hc, hb], ?_⟩
        simp only [step, pop, hc, hb]
        simp only [Bool.false_eq_true, if_false]
        simp at h ⊢
        omega
  | popBl =>
    by_cases hc : s.closed = true
    · simp [step, popB, hc, h]
    · simp only [Bool.not_eq_true] at hc
      cases hb : s.buffer with
      | nil => simp [step, popB, hc, hb, h]
      | cons m rest =>
        rw [hb] at h
        refine ⟨by simp [step, popB, hc, hb], ?_⟩
        simp only [step, popB, hc, hb]
        simp only [Bool.false_eq_true, if_false]
        simp at h ⊢
        omega
  | getOp p =>
    by_cases hc : s.closed = true
    · simp [step, get, hc, h]
    · simp only [Bool.not_eq_true] at hc
      by_cases he : s.buffer.isEmpty = true
      · simp [step, get, hc, he, h]
      · cases hx : extractFirst p s.buffer with
        | none => simp [step, get, hc, he, hx, h]
        | some pr =>
          have hlen := extractFirst_length p s.buffer pr.1 pr.2 (by rw [hx])
          refine ⟨by simp [step, get, hc, he, hx], ?_⟩
          simp [step, get, hc, he, hx]
          omega
  | closeOp => simp [step, close, h]

/-- The capacity stays fixed and the buffer stays within it along any
run. -/
theorem runT_bound {M : Type} [Inhabited M] (ops : List (Op M)) :
    ∀ t : Trace M, t.state.buffer.length ≤ t.state.capacity →
      (runT t ops).state.capacity = t.state.capacity ∧
      (runT t ops).state.buffer.length ≤ t.state.capacity := by
  induction ops with
  | nil => intro t h; exact ⟨rfl, h⟩
  | cons o rest ih =>
    intro t h
    have hb := step_bound t.state o h
    have hs := stepT_state t o
    have h1 : (stepT t o).state.buffer.length ≤ (stepT t o).state.capacity := by
      rw [hs, hb.1]; exact hb.2
    have := ih (stepT t o) h1
    refine ⟨?_, ?_⟩
    · rw [show runT t (o :: rest) = runT (stepT t o) rest from rfl, this.1, hs, hb.1]
    · rw [show runT t (o :: rest) = runT (stepT t o) rest from rfl]
      calc (runT (stepT t o) rest).state.buffer.length
          ≤ (stepT t o).state.capacity := this.2
        _ = t.state.capacity := by rw [hs, hb.1]

/-- C3: capacity bound. For every capacity `c` and every sequence of
`Push`, `Pop`, `Get`, and `Close` operations from a fresh queue, the
buffer length never exceeds `c`. -/
theorem capacity_bound {M : Type} [Inhabited M] (c : Nat) (ops : List (Op M)) :
    (runT (initTrace M c) ops).state.buffer.length ≤ c :=
  (runT_bound ops (initTrace M c) (by simp [initTrace])).2

/-- Phase of one consumer thread executing `Pop<Blocking>` around the
`m_popCv.wait(lk, pred)` call.  `preBlock` is the window after the
thread has evaluated the wait predicate (to `false`, while holding
`m_mtx`) but before its atomic release-and-block on the condition
variable has completed. -/
inductive WaiterPhase where
  | running
  | preBlock
  | blocked
  | finished (r : Result)
deriving DecidableEq, Repr

/-- A queue together with one consumer thread suspended in or around
`Pop<Blocking>`. -/
structure CvSys (M : Type) where
  q : QState M
  waiter : WaiterPhase
deriving Repr

/-- Interleaved events of the waiter thread and a closer thread. -/
inductive CvEvent where
  | evalPred
  | enterWait
  | closeCall
deriving DecidableEq, Repr

/-- One interleaving step, following C++ `std::condition_variable`
semantics.  `evalPred` is the waiter evaluating
`IsClosed() || !m_queue.empty()` under the lock: when true the wait
returns and `Pop` finishes (with `Closed` or the head and `Ok`); when
false the thread moves to the `preBlock` window.  `enterWait` completes
the atomic release-and-block.  `closeCall` is another thread running
`Close()`: it stores `State::Closed` and calls `notify_all` — which, as
`Close` holds no lock at that point, unblocks only threads already
blocked on the condition variable; a thread still in its `preBlock`
window misses the notification. -/
def cvStep {M : Type} [Inhabited M] (s : CvSys M) : CvEvent → CvSys M
  | CvEvent.evalPred =>
    match s.waiter with
    | WaiterPhase.running =>
      if s.q.closed then { s with waiter := WaiterPhase.finished Result.Closed }
      else
        match s.q.buffer with
        | [] => { s with waiter := WaiterPhase.preBlock }
        | _ :: rest =>
          { q := { s.q with buffer := rest }, waiter := WaiterPhase.finished Result.Ok }
    | _ => s
  | CvEvent.enterWait =>
    match s.waiter with
    | WaiterPhase.preBlock => { s with waiter := WaiterPhase.blocked }
    | _ => s
  | CvEvent.closeCall =>
    { q := { s.q with closed := true },
      waiter := if s.waiter = WaiterPhase.blocked then WaiterPhase.running else s.waiter }

/-- Run a sequence of interleaving events. -/
def cvRun {M : Type} [Inhabited M] (s : CvSys M) (es : List CvEvent) : CvSys M :=
  es.foldl cvStep s

/-- A consumer about to execute `Pop<Blocking>` on a fresh, empty,
open queue of capacity 2. -/
def cvInit : CvSys Nat :=
  { q := { buffer := [], capacity := 2, closed := false },
    waiter := WaiterPhase.running }

/-- C7: lost-wakeup counterexample.  `Close()` stores the closed flag
and calls `notify_all` without holding `m_mtx`, so it may run entirely
inside the waiter's `preBlock` window: the interleaving `evalPred`,
`closeCall`, `enterWait` leaves the queue closed with the waiter
permanently blocked — no further waiter step (`evalPred`/`enterWait`)
changes the system, so the blocked `Pop<Blocking>` never returns
`Closed`.  Under the fence-free interleaving (`evalPred`, `enterWait`,
`closeCall`, `evalPred`) the same thread is woken and finishes with
`Closed`, which is the behaviour the claim describes. -/
theorem blocking_lost_wakeup :
    (cvRun cvInit [CvEvent.evalPred, CvEvent.closeCall, CvEvent.enterWait]).q.closed = true ∧
    (cvRun cvInit [CvEvent.evalPred, CvEvent.closeCall, CvEvent.enterWait]).waiter
      = WaiterPhase.blocked ∧
    cvStep (cvRun cvInit [CvEvent.evalPred, CvEvent.closeCall, CvEvent.enterWait])
        CvEvent.evalPred
      = cvRun cvInit [CvEvent.evalPred, CvEvent.closeCall, CvEvent.enterWait] ∧
    cvStep (cvRun cvInit [CvEvent.evalPred, CvEvent.closeCall, CvEvent.enterWait])
        CvEvent.enterWait
      = cvRun cvInit [CvEvent.evalPred, CvEvent.closeCall, CvEvent.enterWait] ∧
    (cvRun cvInit [CvEvent.evalPred, CvEvent.enterWait, CvEvent.closeCall,
        CvEvent.evalPred]).waiter
      = WaiterPhase.finished Result.Closed :=
  ⟨rfl, rfl, rfl, rfl, rfl⟩

end TestTask
